import Mathlib

/-
Verification of the two small HTTP services in this repository:
the in-memory "people" CRUD API (main.go) and the layered
user-registration service (01.separation/main.go).  Go slices are
modelled as a pair of an underlying array (a Lean list of fixed length,
the capacity region actually reachable by the code) together with the
current slice length; the Go map backing the user storage is modelled as
an association list with map-style update.  Machine behaviour that can
abort a handler (out-of-range slice bounds) is modelled with Option.
-/

/- JSON values, as produced by encoding/json for the types at hand. -/

inductive Json where
  | str (s : String)
  | arr (xs : List Json)
  | obj (fields : List (String × Json))

/- Data model of main.go: Person with an optional nested Address.
All fields carry the omitempty JSON option; the Address field is a
pointer, absent when nil. -/

structure Address where
  City : String
  State : String
deriving DecidableEq

structure Person where
  ID : String
  Firstname : String
  Lastname : String
  Address : Option Address
deriving DecidableEq

def encodeAddress (a : Address) : Json :=
  Json.obj
    ((if a.City = "" then [] else [("city", Json.str a.City)]) ++
     (if a.State = "" then [] else [("state", Json.str a.State)]))

def encodePerson (p : Person) : Json :=
  Json.obj
    ((if p.ID = "" then [] else [("id", Json.str p.ID)]) ++
     (if p.Firstname = "" then [] else [("firstname", Json.str p.Firstname)]) ++
     (if p.Lastname = "" then [] else [("lastname", Json.str p.Lastname)]) ++
     (match p.Address with
      | none => []
      | some a => [("address", encodeAddress a)]))

/- GET /people: encode the whole collection, status 200. -/

def getPeopleEndpoint (people : List Person) : Nat × Json :=
  (200, Json.arr (people.map encodePerson))

/- GET /people/id: linear scan for the first entry whose ID matches,
encoding it on a hit and an all-zero Person (which encodes as the empty
object) on a miss; status 200 either way. -/

def getPersonEndpoint (pid : String) (people : List Person) : Nat × Json :=
  match people.find? (fun item => item.ID == pid) with
  | some item => (200, encodePerson item)
  | none => (200, encodePerson { ID := "", Firstname := "", Lastname := "", Address := none })

/- POST /people/add: overwrite the decoded ID with the decimal rendering
of len(people)+1, append, echo the stored person. -/

def createPersonEndpoint (body : Person) (people : List Person) : Person × List Person :=
  let person : Person := { body with ID := toString (people.length + 1) }
  (person, people ++ [person])

/- DELETE /people/id in main.go deletes inside a range loop:

  for index, item := range people
    if item.ID == params[id]
      people = append(people[:index], people[index+1:]...)

The range header (base pointer and length) is captured once, so the loop
always runs people.length iterations and each read item = arr[index]
sees the in-place mutations made by append.  The state is (arr, n): arr
is the reachable prefix of the underlying array, of constant length, and
n the current slice length.  append(people[:i], people[i+1:]...) shifts
arr[i+1 .. n-1] one slot left, leaves arr[n-1 ..] stale, and decrements
n; slicing people[i+1:] panics when i+1 exceeds the current length n,
modelled as none. -/

def shiftDel (arr : List Person) (i n : Nat) : List Person :=
  arr.take i ++ (arr.drop (i + 1)).take (n - 1 - i) ++ arr.drop (n - 1)

def deleteIter (pid : String) : Nat → Nat → List Person → Nat → Option (List Person × Nat)
  | 0, _, arr, n => some (arr, n)
  | k + 1, i, arr, n =>
    match arr[i]? with
    | none => some (arr, n)
    | some item =>
      if item.ID == pid then
        if i + 1 ≤ n then deleteIter pid k (i + 1) (shiftDel arr i n) (n - 1)
        else none
      else deleteIter pid k (i + 1) arr n

def deletePersonEndpoint (pid : String) (people : List Person) : Option (List Person) :=
  (deleteIter pid people.length 0 people people.length).map (fun r => r.1.take r.2)

/- The collection seeded in main before the router starts. -/

def initialPeople : List Person :=
  [ { ID := "1", Firstname := "Alex", Lastname := "Lee",
      Address := some { City := "Ho Chi Minh", State := "Tan Phu" } },
    { ID := "2", Firstname := "Minh", Lastname := "Le", Address := none } ]

/- 01.separation/main.go.  Go errors are values compared by identity:
the two sentinels ErrUserNotFound and ErrEmailExist are distinguished
constructors, and every errors.New at a use site is a distinct value
carrying its message. -/

inductive GoError where
  | userNotFound
  | emailExist
  | errorsNew (msg : String)
deriving DecidableEq

def GoError.message : GoError → String
  | .userNotFound => "User not found"
  | .emailExist => "Email is already in user"
  | .errorsNew m => m

structure User where
  Email : String
  Name : String
deriving DecidableEq

/- MemoryUserStorage: a Go map from email to user, modelled as an
association list whose keys are unique (established as an invariant
below); map assignment replaces the entry when the key is present and
otherwise appends. -/

def MemoryUserStorage.Get (store : List (String × User)) (email : String) :
    Except GoError User :=
  match store.find? (fun kv => kv.1 == email) with
  | some kv => Except.ok kv.2
  | none => Except.error GoError.userNotFound

def mapSet (store : List (String × User)) (k : String) (u : User) :
    List (String × User) :=
  if store.any (fun kv => kv.1 == k) then
    store.map (fun kv => if kv.1 == k then (k, u) else kv)
  else store ++ [(k, u)]

def MemoryUserStorage.Save (store : List (String × User)) (u : User) :
    Option GoError × List (String × User) :=
  (none, mapSet store u.Email u)

/- The UserStorer interface: get may fail with any error value, save
returns an error and the updated storage state. -/

structure Storer (σ : Type) where
  get : σ → String → Except GoError User
  save : σ → User → Option GoError × σ

def memStorer : Storer (List (String × User)) :=
  { get := MemoryUserStorage.Get, save := MemoryUserStorage.Save }

structure RegisterParams where
  Email : String
  Name : String
deriving DecidableEq

def containsRune (s : String) (c : Char) : Bool :=
  s.data.contains c

def RegisterParams.Validate (rp : RegisterParams) : Option GoError :=
  if rp.Email = "" then some (GoError.errorsNew "Email connot be empty")
  else if !(containsRune rp.Email '@') then
    some (GoError.errorsNew "Email must include an \x27@\x27 symbol")
  else if rp.Name = "" then some (GoError.errorsNew "Name cannot be empty")
  else none

/- UserServiceImpl.Register over an arbitrary UserStorer: look the email
up; a nil error means the email exists; an error other than
ErrUserNotFound is returned as is; on ErrUserNotFound the user is saved.
The Bool records whether Save was called. -/

def UserServiceImpl.RegisterG {σ : Type} (S : Storer σ) (s : σ) (p : RegisterParams) :
    Option GoError × σ × Bool :=
  match S.get s p.Email with
  | Except.ok _ => (some GoError.emailExist, s, false)
  | Except.error e =>
    if e ≠ GoError.userNotFound then (some e, s, false)
    else
      let r := S.save s { Email := p.Email, Name := p.Name }
      (r.1, r.2, true)

def UserServiceImpl.Register (store : List (String × User)) (p : RegisterParams) :
    Option GoError × List (String × User) :=
  let r := UserServiceImpl.RegisterG memStorer store p
  (r.1, r.2.1)

def UserServiceImpl.GetByEmail (store : List (String × User)) (email : String) :
    Except GoError User :=
  MemoryUserStorage.Get store email

/- JsonOverHTTP: the transport layer.  A response body is either plain
text (http.Error and friends) or an encoded JSON value. -/

inductive HttpBody where
  | text (s : String)
  | jsonVal (j : Json)

def encodeUser (u : User) : Json :=
  Json.obj [("email", Json.str u.Email), ("name", Json.str u.Name)]

def JsonOverHTTP.RegisterH {σ : Type} (S : Storer σ) (s : σ) (method : String)
    (body : Except String RegisterParams) : (Nat × HttpBody) × σ :=
  if method ≠ "POST" then ((405, HttpBody.text "Register requires a post request"), s)
  else
    match body with
    | Except.error _ => ((400, HttpBody.text "Unable to read your request"), s)
    | Except.ok params =>
      match RegisterParams.Validate params with
      | some e => ((400, HttpBody.text (GoError.message e)), s)
      | none =>
        let r := UserServiceImpl.RegisterG S s params
        match r.1 with
        | some e =>
          if e = GoError.emailExist then ((403, HttpBody.text (GoError.message e)), r.2.1)
          else ((500, HttpBody.text (GoError.message e)), r.2.1)
        | none => ((201, HttpBody.text ""), r.2.1)

def JsonOverHTTP.validateEmail (email : String) : Option GoError :=
  if email = "" then some (GoError.errorsNew "Email must not be empty")
  else if !(containsRune email '@') then
    some (GoError.errorsNew "Email must include an \x27@\x27 sympol")
  else none

def JsonOverHTTP.GetUser {σ : Type} (S : Storer σ) (s : σ) (method : String)
    (email : String) : Nat × HttpBody :=
  if method ≠ "GET" then (405, HttpBody.text "GetUser requires a get request")
  else
    match JsonOverHTTP.validateEmail email with
    | some e => (400, HttpBody.text (GoError.message e))
    | none =>
      match S.get s email with
      | Except.error e =>
        if e = GoError.userNotFound then (404, HttpBody.text (GoError.message e))
        else (500, HttpBody.text (GoError.message e))
      | Except.ok u => (200, HttpBody.jsonVal (encodeUser u))

/- Operation alphabets for the invariant claims: the public operations
of each service, folded over a starting state. -/

inductive PeopleOp where
  | create (body : Person)
  | fetchOne (pid : String)
  | fetchAll
  | delete (pid : String)

def peopleStep (s : List Person) : PeopleOp → Option (List Person)
  | PeopleOp.create body => some (createPersonEndpoint body s).2
  | PeopleOp.fetchOne _ => some s
  | PeopleOp.fetchAll => some s
  | PeopleOp.delete pid => deletePersonEndpoint pid s

def peopleRun : List Person → List PeopleOp → Option (List Person)
  | s, [] => some s
  | s, op :: ops =>
    match peopleStep s op with
    | some s2 => peopleRun s2 ops
    | none => none

inductive UserOp where
  | register (p : RegisterParams)
  | fetch (email : String)

def userStep (s : List (String × User)) : UserOp → List (String × User)
  | UserOp.register p => (UserServiceImpl.Register s p).2
  | UserOp.fetch _ => s

def userRun : List (String × User) → List UserOp → List (String × User)
  | s, [] => s
  | s, op :: ops => userRun (userStep s op) ops

/- A storer whose lookup fails with an error other than the NotFound
sentinel, exercising the storage-error propagation path. -/

def failStorer : Storer Unit :=
  { get := fun _ _ => Except.error (GoError.errorsNew "disk failure"),
    save := fun s _ => (none, s) }

/- Helper lemmas. -/

lemma mem_drop_of_getElem? (arr : List Person) (i : Nat) (item : Person)
    (hg : arr[i]? = some item) : item ∈ arr.drop i := by
  have h0 : (arr.drop i)[0]? = some item := by
    rw [List.getElem?_drop]
    simpa using hg
  exact List.getElem?_mem h0

lemma Register_of_find?_some (store : List (String × User)) (p : RegisterParams)
    (kv : String × User) (hf : store.find? (fun kv => kv.1 == p.Email) = some kv) :
    UserServiceImpl.Register store p = (some GoError.emailExist, store) := by
  simp [UserServiceImpl.Register, UserServiceImpl.RegisterG, memStorer,
    MemoryUserStorage.Get, hf]

lemma Register_of_find?_none (store : List (String × User)) (p : RegisterParams)
    (hf : store.find? (fun kv => kv.1 == p.Email) = none) :
    UserServiceImpl.Register store p =
      (none, store ++ [(p.Email, { Email := p.Email, Name := p.Name })]) := by
  have hany : store.any (fun kv => kv.1 == p.Email) = false := by
    rw [List.any_eq_false]
    intro x hx
    exact List.find?_eq_none.mp hf x hx
  simp [UserServiceImpl.Register, UserServiceImpl.RegisterG, memStorer,
    MemoryUserStorage.Get, MemoryUserStorage.Save, mapSet, hf, hany]

/-- C10: the create-person operation ignores any caller-supplied ID,
always sets the stored ID to the decimal string of the current length
plus one, and appends the person at the end, so listing the collection
shows people in creation order. -/
theorem createPerson_sequential_id_append (body : Person) (people : List Person) :
    (∀ id2 : String, createPersonEndpoint { body with ID := id2 } people =
      createPersonEndpoint body people) ∧
    createPersonEndpoint body people =
      ({ body with ID := toString (people.length + 1) },
       people ++ [{ body with ID := toString (people.length + 1) }]) ∧
    getPeopleEndpoint (createPersonEndpoint body people).2 =
      (200, Json.arr ((people ++
        [{ body with ID := toString (people.length + 1) }]).map encodePerson)) :=
  ⟨fun _ => rfl, rfl, rfl⟩

/-- C6: looking up an email that is bound by no entry of the storage
returns the ErrUserNotFound error and no user, both at the storage layer
and through the service. -/
theorem get_unregistered_notFound (store : List (String × User)) (email : String)
    (h : ∀ kv ∈ store, kv.1 ≠ email) :
    MemoryUserStorage.Get store email = Except.error GoError.userNotFound ∧
    UserServiceImpl.GetByEmail store email = Except.error GoError.userNotFound := by
  have hf : store.find? (fun kv => kv.1 == email) = none := by
    rw [List.find?_eq_none]
    intro kv hkv
    simpa using h kv hkv
  exact ⟨by simp [MemoryUserStorage.Get, hf],
         by simp [UserServiceImpl.GetByEmail, MemoryUserStorage.Get, hf]⟩

theorem get_unregistered_notFound_witness :
    MemoryUserStorage.Get [("x@y", { Email := "x@y", Name := "Z" })] "a@b" =
      Except.error GoError.userNotFound ∧
    UserServiceImpl.GetByEmail [("x@y", { Email := "x@y", Name := "Z" })] "a@b" =
      Except.error GoError.userNotFound :=
  get_unregistered_notFound [("x@y", { Email := "x@y", Name := "Z" })] "a@b" (by decide)

/-- C8: when the storage lookup fails with an error other than the
NotFound sentinel, Register returns that very error value, does not
call Save, and leaves the state untouched. -/
theorem register_propagates_storage_error {σ : Type} (S : Storer σ) (s : σ)
    (p : RegisterParams) (e : GoError) (hg : S.get s p.Email = Except.error e)
    (hne : e ≠ GoError.userNotFound) :
    UserServiceImpl.RegisterG S s p = (some e, s, false) := by
  simp [UserServiceImpl.RegisterG, hg, hne]

theorem register_propagates_storage_error_witness :
    UserServiceImpl.RegisterG failStorer () { Email := "a@b", Name := "N" } =
      (some (GoError.errorsNew "disk failure"), (), false) :=
  register_propagates_storage_error failStorer () { Email := "a@b", Name := "N" }
    (GoError.errorsNew "disk failure") rfl (by decide)

/-- C3: after a successful Register for an email, a second Register with
the same email and any name returns the ErrEmailExist error and leaves
the storage state, hence the stored entity for that email, unchanged. -/
theorem register_same_email_twice_emailExist (store store2 : List (String × User))
    (p p2 : RegisterParams) (he : p2.Email = p.Email)
    (h1 : UserServiceImpl.Register store p = (none, store2)) :
    UserServiceImpl.Register store2 p2 = (some GoError.emailExist, store2) := by
  cases hf : store.find? (fun kv => kv.1 == p.Email) with
  | some kv =>
    rw [Register_of_find?_some store p kv hf] at h1
    simp at h1
  | none =>
    rw [Register_of_find?_none store p hf] at h1
    have h3 : store ++ [(p.Email, { Email := p.Email, Name := p.Name })] = store2 :=
      (Prod.ext_iff.mp h1).2
    subst h3
    apply Register_of_find?_some _ p2 (p.Email, { Email := p.Email, Name := p.Name })
    rw [he]
    simp [List.find?_append, hf]

theorem register_same_email_twice_emailExist_witness :
    UserServiceImpl.Register [("a@b", { Email := "a@b", Name := "N" })]
      { Email := "a@b", Name := "M" } =
      (some GoError.emailExist, [("a@b", { Email := "a@b", Name := "N" })]) :=
  register_same_email_twice_emailExist [] [("a@b", { Email := "a@b", Name := "N" })]
    { Email := "a@b", Name := "N" } { Email := "a@b", Name := "M" } rfl (by decide)

/-- C5: for valid parameters whose email is bound by no entry of the
storage, Register succeeds by appending the new entry, and a following
GetByEmail for that email returns a user whose Email and Name fields are
exactly the submitted ones. -/
theorem register_then_getByEmail_roundtrip (store : List (String × User))
    (p : RegisterParams) (hv : RegisterParams.Validate p = none)
    (habs : ∀ kv ∈ store, kv.1 ≠ p.Email) :
    UserServiceImpl.Register store p =
      (none, store ++ [(p.Email, { Email := p.Email, Name := p.Name })]) ∧
    UserServiceImpl.GetByEmail
        (store ++ [(p.Email, { Email := p.Email, Name := p.Name })]) p.Email =
      Except.ok { Email := p.Email, Name := p.Name } := by
  have hf : store.find? (fun kv => kv.1 == p.Email) = none := by
    rw [List.find?_eq_none]
    intro kv hkv
    simpa using habs kv hkv
  refine ⟨Register_of_find?_none store p hf, ?_⟩
  simp [UserServiceImpl.GetByEmail, MemoryUserStorage.Get, List.find?_append, hf]

theorem register_then_getByEmail_roundtrip_witness :
    UserServiceImpl.Register [("x@y", { Email := "x@y", Name := "Z" })]
      { Email := "a@b", Name := "N" } =
      (none, [("x@y", { Email := "x@y", Name := "Z" }),
              ("a@b", { Email := "a@b", Name := "N" })]) ∧
    UserServiceImpl.GetByEmail
      [("x@y", { Email := "x@y", Name := "Z" }),
       ("a@b", { Email := "a@b", Name := "N" })] "a@b" =
      Except.ok { Email := "a@b", Name := "N" } :=
  register_then_getByEmail_roundtrip [("x@y", { Email := "x@y", Name := "Z" })]
    { Email := "a@b", Name := "N" } (by decide) (by decide)

/-- C4: a registration request whose parameters have an empty name, an
empty email, or an email without the at character fails validation with
a 400 response, and the storage state after the call is the state before
it; the result holds for every storer, so the storage is not consulted. -/
theorem invalid_params_rejected_before_storage {σ : Type} (S : Storer σ) (s : σ)
    (p : RegisterParams)
    (h : p.Name = "" ∨ p.Email = "" ∨ containsRune p.Email '@' = false) :
    ∃ e, RegisterParams.Validate p = some e ∧
      JsonOverHTTP.RegisterH S s "POST" (Except.ok p) =
        ((400, HttpBody.text (GoError.message e)), s) := by
  have hv : ∃ e, RegisterParams.Validate p = some e := by
    unfold RegisterParams.Validate
    by_cases hemail : p.Email = ""
    · exact ⟨GoError.errorsNew "Email connot be empty", by simp [hemail]⟩
    by_cases hc : containsRune p.Email '@'
    · have hname : p.Name = "" := by
        rcases h with h | h | h
        · exact h
        · exact absurd h hemail
        · rw [h] at hc; exact absurd hc (by simp)
      exact ⟨GoError.errorsNew "Name cannot be empty", by simp [hemail, hc, hname]⟩
    · exact ⟨GoError.errorsNew "Email must include an \x27@\x27 symbol",
        by simp [hemail, hc]⟩
  obtain ⟨e, hv⟩ := hv
  exact ⟨e, hv, by simp [JsonOverHTTP.RegisterH, hv]⟩

theorem invalid_params_rejected_before_storage_witness :
    ∃ e, RegisterParams.Validate { Email := "ab", Name := "X" } = some e ∧
      JsonOverHTTP.RegisterH memStorer [] "POST"
          (Except.ok { Email := "ab", Name := "X" }) =
        ((400, HttpBody.text (GoError.message e)), []) :=
  invalid_params_rejected_before_storage memStorer []
    { Email := "ab", Name := "X" } (by decide)

/-- C7: once the transport gates pass, the outcome mapping is total and
exact: the ErrEmailExist service outcome answers 403, any other service
error answers 500, a successful register answers 201; a NotFound lookup
answers 404, any other lookup error answers 500, and a found user
answers 200 with its JSON encoding. -/
theorem transport_maps_outcomes_to_statuses {σ : Type} (S : Storer σ) (s : σ)
    (p : RegisterParams) (email : String)
    (hv : RegisterParams.Validate p = none)
    (he : JsonOverHTTP.validateEmail email = none) :
    ((UserServiceImpl.RegisterG S s p).1 = some GoError.emailExist →
      (JsonOverHTTP.RegisterH S s "POST" (Except.ok p)).1.1 = 403) ∧
    (∀ e, (UserServiceImpl.RegisterG S s p).1 = some e → e ≠ GoError.emailExist →
      (JsonOverHTTP.RegisterH S s "POST" (Except.ok p)).1.1 = 500) ∧
    ((UserServiceImpl.RegisterG S s p).1 = none →
      (JsonOverHTTP.RegisterH S s "POST" (Except.ok p)).1.1 = 201) ∧
    (S.get s email = Except.error GoError.userNotFound →
      JsonOverHTTP.GetUser S s "GET" email = (404, HttpBody.text "User not found")) ∧
    (∀ e, S.get s email = Except.error e → e ≠ GoError.userNotFound →
      (JsonOverHTTP.GetUser S s "GET" email).1 = 500) ∧
    (∀ u, S.get s email = Except.ok u →
      JsonOverHTTP.GetUser S s "GET" email = (200, HttpBody.jsonVal (encodeUser u))) := by
  refine ⟨?_, ?_, ?_, ?_, ?_, ?_⟩
  · intro hr
    simp [JsonOverHTTP.RegisterH, hv, hr]
  · intro e hr hne
    simp [JsonOverHTTP.RegisterH, hv, hr, hne]
  · intro hr
    simp [JsonOverHTTP.RegisterH, hv, hr]
  · intro hg
    simp [JsonOverHTTP.GetUser, he, hg, GoError.message]
  · intro e hg hne
    simp [JsonOverHTTP.GetUser, he, hg, hne]
  · intro u hg
    simp [JsonOverHTTP.GetUser, he, hg]

theorem transport_maps_outcomes_to_statuses_witness :
    (JsonOverHTTP.RegisterH memStorer [("x@y", { Email := "x@y", Name := "Z" })]
        "POST" (Except.ok { Email := "x@y", Name := "M" })).1.1 = 403 ∧
    JsonOverHTTP.GetUser memStorer [("x@y", { Email := "x@y", Name := "Z" })]
        "GET" "a@b" = (404, HttpBody.text "User not found") :=
  ⟨(transport_maps_outcomes_to_statuses memStorer
      [("x@y", { Email := "x@y", Name := "Z" })] { Email := "x@y", Name := "M" }
      "a@b" rfl rfl).1 rfl,
   (transport_maps_outcomes_to_statuses memStorer
      [("x@y", { Email := "x@y", Name := "Z" })] { Email := "x@y", Name := "M" }
      "a@b" rfl rfl).2.2.2.1 rfl⟩

lemma find?_of_first_match (pid : String) :
    ∀ (l : List Person) (i : Nat) (p : Person),
      l[i]? = some p → p.ID = pid →
      (∀ (j : Nat) (q : Person), j < i → l[j]? = some q → q.ID ≠ pid) →
      l.find? (fun x => x.ID == pid) = some p := by
  intro l
  induction l with
  | nil => intro i p hg; simp at hg
  | cons a t ih =>
    intro i p hg hid hfirst
    cases i with
    | zero =>
      have hpa : a = p := by simpa using hg
      subst hpa
      exact List.find?_cons_of_pos t (by simpa using hid)
    | succ i =>
      have hna : a.ID ≠ pid := hfirst 0 a (Nat.succ_pos i) (by simp)
      rw [List.find?_cons_of_neg t (by simpa using hna)]
      exact ih i p (by simpa using hg) hid
        (fun j q hj hq => hfirst (j + 1) q (Nat.succ_lt_succ hj) (by simpa using hq))

/-- C9: fetching a person by id answers 200 with the empty JSON object
when no entry matches, and 200 with the JSON encoding of the first entry
whose ID equals the requested id when one does. -/
theorem getPerson_first_match_or_empty (pid : String) (people : List Person) :
    ((∀ q ∈ people, q.ID ≠ pid) →
      getPersonEndpoint pid people = (200, Json.obj [])) ∧
    (∀ (i : Nat) (p : Person), people[i]? = some p → p.ID = pid →
      (∀ (j : Nat) (q : Person), j < i → people[j]? = some q → q.ID ≠ pid) →
      getPersonEndpoint pid people = (200, encodePerson p)) := by
  constructor
  · intro h
    have hf : people.find? (fun x => x.ID == pid) = none := by
      rw [List.find?_eq_none]
      intro x hx
      simpa using h x hx
    simp [getPersonEndpoint, hf]
    rfl
  · intro i p hg hid hfirst
    have hf := find?_of_first_match pid people i p hg hid hfirst
    simp [getPersonEndpoint, hf]

theorem getPerson_first_match_or_empty_witness :
    getPersonEndpoint "9" initialPeople = (200, Json.obj []) ∧
    getPersonEndpoint "2" initialPeople =
      (200, encodePerson { ID := "2", Firstname := "Minh", Lastname := "Le",
                           Address := none }) := by
  constructor
  · exact (getPerson_first_match_or_empty "9" initialPeople).1 (by decide)
  · refine (getPerson_first_match_or_empty "2" initialPeople).2 1
      { ID := "2", Firstname := "Minh", Lastname := "Le", Address := none }
      rfl rfl ?_
    intro j q hj hq
    cases j with
    | zero =>
      have hA : initialPeople[0]? =
          some ⟨"1", "Alex", "Lee", some ⟨"Ho Chi Minh", "Tan Phu"⟩⟩ := rfl
      rw [hA] at hq
      cases hq
      decide
    | succ j => omega

lemma register_preserves_inv (s : List (String × User)) (p : RegisterParams)
    (h1 : (s.map Prod.fst).Nodup) (h2 : ∀ kv ∈ s, kv.2.Email = kv.1) :
    ((UserServiceImpl.Register s p).2.map Prod.fst).Nodup ∧
    ∀ kv ∈ (UserServiceImpl.Register s p).2, kv.2.Email = kv.1 := by
  cases hf : s.find? (fun kv => kv.1 == p.Email) with
  | some kv =>
    rw [Register_of_find?_some s p kv hf]
    exact ⟨h1, h2⟩
  | none =>
    rw [Register_of_find?_none s p hf]
    have hkey : p.Email ∉ s.map Prod.fst := by
      intro hmem
      obtain ⟨kv, hkv, hk⟩ := List.mem_map.mp hmem
      have hne := List.find?_eq_none.mp hf kv hkv
      simp [hk] at hne
    constructor
    · rw [List.map_append, List.nodup_append]
      refine ⟨h1, by simp, ?_⟩
      intro a ha hb
      simp only [List.map_cons, List.map_nil, List.mem_singleton] at hb
      subst hb
      exact hkey ha
    · intro kv hkv
      rcases List.mem_append.mp hkv with hm | hm
      · exact h2 kv hm
      · simp only [List.mem_singleton] at hm
        subst hm
        rfl

lemma userRun_preserves_inv : ∀ (ops : List UserOp) (s : List (String × User)),
    (s.map Prod.fst).Nodup → (∀ kv ∈ s, kv.2.Email = kv.1) →
    ((userRun s ops).map Prod.fst).Nodup ∧
    ∀ kv ∈ userRun s ops, kv.2.Email = kv.1 := by
  intro ops
  induction ops with
  | nil => intro s h1 h2; exact ⟨h1, h2⟩
  | cons op ops ih =>
    intro s h1 h2
    cases op with
    | register p =>
      have h := register_preserves_inv s p h1 h2
      exact ih _ h.1 h.2
    | fetch e => exact ih s h1 h2

/-- C2 (amended): in the layered user service, email uniqueness is an
invariant: starting from the empty storage, after any sequence of
Register and GetByEmail operations no two stored users share an email.
The people API of main.go does not enjoy the corresponding ID
invariant (see the counterexample). -/
theorem user_storage_email_uniqueness (ops : List UserOp) :
    ((userRun [] ops).map (fun kv => kv.2.Email)).Nodup := by
  obtain ⟨h1, h2⟩ := userRun_preserves_inv ops [] (by simp) (by simp)
  have hmap : (userRun [] ops).map (fun kv => kv.2.Email) =
      (userRun [] ops).map Prod.fst :=
    List.map_congr_left (fun kv hkv => h2 kv hkv)
  rw [hmap]
  exact h1

/-- Counterexample to C2 as stated: on the people collection, deleting
the seeded person then creating one reuses ID 2, so two stored entries
share an identifier after a sequence of public operations. -/
theorem people_id_uniqueness_counterexample :
    peopleRun initialPeople
      [PeopleOp.delete "1", PeopleOp.create ⟨"", "Hung", "Tran", none⟩] =
      some [⟨"2", "Minh", "Le", none⟩, ⟨"2", "Hung", "Tran", none⟩] ∧
    ¬ ([(⟨"2", "Minh", "Le", none⟩ : Person), ⟨"2", "Hung", "Tran", none⟩].map
        Person.ID).Nodup :=
  ⟨by decide, by decide⟩

lemma deleteIter_no_match (pid : String) :
    ∀ (k i : Nat) (arr : List Person) (n : Nat),
      (∀ q ∈ arr.drop i, (q.ID == pid) = false) →
      deleteIter pid k i arr n = some (arr, n) := by
  intro k
  induction k with
  | zero => intro i arr n _; rfl
  | succ k ih =>
    intro i arr n h
    cases hg : arr[i]? with
    | none => simp [deleteIter, hg]
    | some item =>
      have hmem : item ∈ arr.drop i := mem_drop_of_getElem? arr i item hg
      have hfalse : (item.ID == pid) = false := h item hmem
      have hrest : ∀ q ∈ arr.drop (i + 1), (q.ID == pid) = false := by
        intro q hq
        exact h q (List.drop_subset_drop_left arr (Nat.le_succ i) hq)
      simp only [deleteIter, hg, hfalse]
      simp only [Bool.false_eq_true, if_false]
      exact ih (i + 1) arr n hrest

lemma deleteIter_succ (pid : String) (k i : Nat) (arr : List Person) (n : Nat) :
    deleteIter pid (k + 1) i arr n =
      match arr[i]? with
      | none => some (arr, n)
      | some item =>
        if item.ID == pid then
          if i + 1 ≤ n then deleteIter pid k (i + 1) (shiftDel arr i n) (n - 1)
          else none
        else deleteIter pid k (i + 1) arr n := rfl

lemma deleteIter_unique (pid : String) (arr : List Person) :
    ∀ (k i : Nat), arr.length = i + k →
      ((arr.drop i).countP (fun q => q.ID == pid)) ≤ 1 →
      ((deleteIter pid k i arr arr.length).map (fun r => r.1.take r.2)) =
        some (arr.take i ++ (arr.drop i).filter (fun q => !(q.ID == pid))) := by
  intro k
  induction k with
  | zero =>
    intro i hlen _
    have hi : i = arr.length := by omega
    subst hi
    simp [deleteIter]
  | succ k ih =>
    intro i hlen hcount
    have hi : i < arr.length := by omega
    have hg : arr[i]? = some arr[i] := List.getElem?_eq_getElem hi
    have hdrop : arr.drop i = arr[i] :: arr.drop (i + 1) := List.drop_eq_getElem_cons hi
    cases hm : (arr[i].ID == pid) with
    | false =>
      have hstep : deleteIter pid (k + 1) i arr arr.length =
          deleteIter pid k (i + 1) arr arr.length := by
        rw [deleteIter_succ, hg]
        simp only [hm, Bool.false_eq_true, if_false]
      have hcount2 : (arr.drop (i + 1)).countP (fun q => q.ID == pid) ≤ 1 := by
        rw [hdrop, List.countP_cons] at hcount
        simpa [hm] using hcount
      rw [hstep, ih (i + 1) (by omega) hcount2]
      have htake1 : arr.take (i + 1) = arr.take i ++ [arr[i]] := by
        rw [List.take_succ, hg]
        rfl
      have hfC : (arr.drop i).filter (fun q => !(q.ID == pid)) =
          arr[i] :: (arr.drop (i + 1)).filter (fun q => !(q.ID == pid)) := by
        rw [hdrop, List.filter_cons]
        simp [hm]
      rw [htake1, hfC, List.append_assoc]
      rfl
    | true =>
      have hle : i + 1 ≤ arr.length := hi
      have hstep : deleteIter pid (k + 1) i arr arr.length =
          deleteIter pid k (i + 1) (shiftDel arr i arr.length) (arr.length - 1) := by
        rw [deleteIter_succ, hg]
        simp only [hm, if_true]
        rw [if_pos hle]
      rw [hdrop, List.countP_cons] at hcount
      simp [hm] at hcount
      have hnomatch : ∀ q ∈ arr.drop (i + 1), (q.ID == pid) = false := by
        intro q hq
        simpa using hcount q hq
      have hB : (arr.drop (i + 1)).take (arr.length - 1 - i) = arr.drop (i + 1) := by
        apply List.take_of_length_le
        rw [List.length_drop]
        omega
      have harr2 : shiftDel arr i arr.length =
          (arr.take i ++ arr.drop (i + 1)) ++ arr.drop (arr.length - 1) := by
        rw [shiftDel, hB]
      have hrest : ∀ q ∈ (shiftDel arr i arr.length).drop (i + 1),
          (q.ID == pid) = false := by
        intro q hq
        rcases Nat.lt_or_ge (i + 1) arr.length with hlt | hge
        · have hnil : (arr.take i).drop (i + 1) = [] :=
            List.drop_eq_nil_of_le (by rw [List.length_take]; omega)
          rw [harr2, List.drop_append_eq_append_drop,
            List.drop_append_eq_append_drop, hnil] at hq
          simp only [List.nil_append] at hq
          rcases List.mem_append.mp hq with hq2 | hq2
          · exact hnomatch q (List.drop_subset _ _ hq2)
          · exact hnomatch q
              (List.drop_subset_drop_left arr (by omega) (List.drop_subset _ _ hq2))
        · have hlen2 : (shiftDel arr i arr.length).length ≤ i + 1 := by
            rw [harr2]
            simp only [List.length_append, List.length_take, List.length_drop]
            omega
          rw [List.drop_eq_nil_of_le hlen2] at hq
          simp at hq
      rw [hstep, deleteIter_no_match pid k (i + 1) (shiftDel arr i arr.length)
        (arr.length - 1) hrest]
      have hmap : (Option.map (fun r : List Person × Nat => r.1.take r.2)
          (some (shiftDel arr i arr.length, arr.length - 1))) =
          some ((shiftDel arr i arr.length).take (arr.length - 1)) := rfl
      have htake : (shiftDel arr i arr.length).take (arr.length - 1) =
          arr.take i ++ arr.drop (i + 1) := by
        rw [harr2]
        apply List.take_left'
        simp only [List.length_append, List.length_take, List.length_drop]
        omega
      have hfilterid : (arr.drop (i + 1)).filter (fun q => !(q.ID == pid)) =
          arr.drop (i + 1) :=
        List.filter_eq_self.mpr fun a ha => by simp [hnomatch a ha]
      have hfC : (arr.drop i).filter (fun q => !(q.ID == pid)) =
          (arr.drop (i + 1)).filter (fun q => !(q.ID == pid)) := by
        rw [hdrop, List.filter_cons]
        simp [hm]
      rw [hmap, htake, hfC, hfilterid]

/-- C1 (amended): whenever at most one entry of the collection bears the
requested id — in particular whenever ids are pairwise distinct — the
DELETE handler removes exactly the matching entry, if any, and leaves
every other entry unchanged and in its original order; with no matching
entry the collection is unchanged.  With several matching entries the
in-loop append shifts the array under the captured range header and the
handler misses or revisits entries (see the counterexample). -/
theorem delete_removes_unique_match (pid : String) (people : List Person)
    (h : people.countP (fun q => q.ID == pid) ≤ 1) :
    deletePersonEndpoint pid people =
      some (people.filter (fun q => !(q.ID == pid))) := by
  have hmain := deleteIter_unique pid people people.length 0 (by omega) (by simpa using h)
  simpa [deletePersonEndpoint] using hmain

theorem delete_removes_unique_match_witness :
    deletePersonEndpoint "2" initialPeople =
      some [⟨"1", "Alex", "Lee", some ⟨"Ho Chi Minh", "Tan Phu"⟩⟩] := by
  have h := delete_removes_unique_match "2" initialPeople (by decide)
  rw [h]
  decide

/-- Counterexample to C1 as stated: with two entries sharing id 7, the
in-place shift slides the second matching entry into an index the loop
has already passed, so it survives; the result is not the collection
with all matching entries removed. -/
theorem delete_duplicate_ids_counterexample :
    deletePersonEndpoint "7"
      [⟨"7", "a", "b", none⟩, ⟨"7", "c", "d", none⟩, ⟨"8", "e", "f", none⟩] =
      some [⟨"7", "c", "d", none⟩, ⟨"8", "e", "f", none⟩] ∧
    deletePersonEndpoint "7"
      [⟨"7", "a", "b", none⟩, ⟨"7", "c", "d", none⟩, ⟨"8", "e", "f", none⟩] ≠
      some ([(⟨"7", "a", "b", none⟩ : Person), ⟨"7", "c", "d", none⟩,
        ⟨"8", "e", "f", none⟩].filter (fun q => !(q.ID == "7"))) :=
  ⟨by decide, by decide⟩
